import Mathlib

/-!
Verification development for the PKPD-Agent proof-of-concept core:
the one-compartment infusion forward model, the log-spaced grid-search
fitter, subject grouping (src/poc/model.py), the stop/no-improvement
controller (src/poc/agents.py) and the loop body with its optional
concurrent-mode quality gate (src/poc/agent_poc.py).

Python floats are modelled as real numbers, `math.exp` / `math.sqrt` /
`10 ** x` as `Real.exp` / `Real.sqrt` / real `rpow`, and exceptions as
`Except`.
-/

namespace PKPD

/-- Row from src/poc/model.py: single observation row after parsing raw CSV. -/
structure Row where
  subject_id : String
  time : ℝ
  conc : ℝ
  dose_mg : ℝ
  condition : String
  tinf_h : ℝ

/-- logspace from src/poc/model.py: n log-spaced values between min_val and
max_val (inclusive); `math.log10` is `Real.logb 10` and `10 ** x` is rpow. -/
noncomputable def logspace (min_val max_val : ℝ) (n : ℕ) : List ℝ :=
  if n ≤ 1 then [min_val]
  else
    let log_min := Real.logb 10 min_val
    let log_max := Real.logb 10 max_val
    let step := (log_max - log_min) / ((n : ℝ) - 1)
    (List.range n).map (fun i : ℕ => (10 : ℝ) ^ (log_min + (i : ℝ) * step))

/-- predict_conc from src/poc/model.py: concentration for a 1-compartment IV
infusion model. -/
noncomputable def predict_conc (time_h dose_mg tinf_h cl v : ℝ) : ℝ :=
  if cl ≤ 0 ∨ v ≤ 0 then 0
  else
    let k := cl / v
    if tinf_h ≤ 0 then (dose_mg / v) * Real.exp (-k * time_h)
    else
      let r0 := dose_mg / tinf_h
      if time_h ≤ tinf_h then (r0 / cl) * (1 - Real.exp (-k * time_h))
      else (r0 / cl) * (1 - Real.exp (-k * tinf_h)) * Real.exp (-k * (time_h - tinf_h))

/-- sse_for from src/poc/model.py: sum of squared errors over the rows. -/
noncomputable def sse_for (rows : List Row) (cl v : ℝ) : ℝ :=
  rows.foldl
    (fun err r =>
      let diff := r.conc - predict_conc r.time r.dose_mg r.tinf_h cl v
      err + diff * diff) 0

/-- One update of the best-so-far candidate in grid_search. The Python code
starts from the sentinel (float inf, 0.0, 0.0) and replaces it whenever
`sse < best[0]`; every SSE is a finite real, so the never-surviving infinite
sentinel is modelled by `none`, replaced at the first pair considered. -/
noncomputable def selStep {α : Type} (f : α → ℝ) (best : Option (ℝ × α)) (x : α) :
    Option (ℝ × α) :=
  match best with
  | none => some (f x, x)
  | some (s, p) => if f x < s then some (f x, x) else some (s, p)

/-- CL grid of grid_search: logspace(0.1, 50.0, 25). -/
noncomputable def cl_grid : List ℝ := logspace 0.1 50.0 25

/-- V grid of grid_search: logspace(1.0, 300.0, 25). -/
noncomputable def v_grid : List ℝ := logspace 1.0 300.0 25

/-- The 625 (cl, v) pairs in loop order: outer loop over CL, inner over V. -/
noncomputable def gridPairs : List (ℝ × ℝ) :=
  cl_grid.flatMap (fun cl => v_grid.map (fun v => (cl, v)))

/-- grid_search from src/poc/model.py: coarse grid search returning
(sse, cl, v). The fold over `gridPairs` is the nested loop; the `none`
fallback is unreachable (the grid has 625 pairs) and stands for the Python
sentinel (inf, 0.0, 0.0) that would be returned over an empty grid. -/
noncomputable def grid_search (rows : List Row) : ℝ × ℝ × ℝ :=
  match gridPairs.foldl (selStep (fun p => sse_for rows p.1 p.2)) none with
  | some (s, p) => (s, p.1, p.2)
  | none => (0, 0, 0)

/-- One setdefault-append step of group_by_subject; the insertion-ordered
Python dict is modelled as an association list in key-insertion order. -/
def addRow (acc : List (String × List Row)) (r : Row) : List (String × List Row) :=
  if acc.any (fun p => p.1 = r.subject_id) then
    acc.map (fun p => if p.1 = r.subject_id then (p.1, p.2 ++ [r]) else p)
  else acc ++ [(r.subject_id, [r])]

/-- group_by_subject from src/poc/model.py: group rows by subject_id. -/
def group_by_subject (rows : List Row) : List (String × List Row) :=
  rows.foldl addRow []

/-- Key bookkeeping of the insertion-ordered dict: a key joins the key list
at the end the first time it is seen. -/
def insKey (ks : List String) (k : String) : List String :=
  if k ∈ ks then ks else ks ++ [k]

/-- Subject ids in first-seen order (the dict key order that
group_by_subject produces). -/
def keysOf (rows : List Row) : List String :=
  rows.foldl (fun ks r => insKey ks r.subject_id) []

/-- keysOf from an explicit starting key list, for fold reasoning. -/
def keysOfFrom (ks : List String) (rows : List Row) : List String :=
  rows.foldl (fun ks r => insKey ks r.subject_id) ks

/-- Concatenation of the groups of a grouping, in group order. -/
def flattenGroups (g : List (String × List Row)) : List Row :=
  g.flatMap (fun p => p.2)

/-- The insight payload: a key-value map treated as an association list. -/
def Insights := List (String × String)

/-- Failure of the external paper-insight call (exceptions raised by the
Anthropic client or the local-model path). -/
inductive ExtFailure
  | network
  | credential

/-- The test `not text.strip()` of the source: a Python string strips to
the empty string exactly when every character is whitespace. -/
def is_blank (s : String) : Bool := s.data.all (fun c => c.isWhitespace)

/-- extract_paper_insights from src/poc/llm_utils.py. The external pieces
are parameters: `pdfText` is the text produced by extract_pdf_text, `call`
the outcome of the Anthropic client call (`Except.error` when the client
raises, e.g. a network or credential failure), `parse` the JSON parser
(`none` models a json.JSONDecodeError, which the source catches and turns
into a raw payload). A client exception has no handler in the source and
propagates to the caller. -/
def extract_paper_insights (pdfText : String) (call : Except ExtFailure String)
    (parse : String → Option Insights) : Except ExtFailure Insights :=
  if is_blank pdfText then Except.ok [("error", "no_text_extracted")]
  else
    match call with
    | Except.error e => Except.error e
    | Except.ok content =>
      match parse content with
      | some obj => Except.ok obj
      | none => Except.ok [("raw", content)]

/-- The RMSE expression `math.sqrt(sse / max(n, 1))` that the source
repeats in agent_fit_individual, write_report, should_stop (src/poc/agents.py)
and _gate_passed (src/poc/agent_poc.py): here `pf` is a fit triple whose
first component is the SSE and `rows` the observation list it was fit on. -/
noncomputable def rmse_of (pf : ℝ × ℝ × ℝ) (rows : List Row) : ℝ :=
  Real.sqrt (pf.1 / ((max rows.length 1 : ℕ) : ℝ))

/-- One entry of the per-subject results list built by
agent_fit_individual. -/
structure FitRow where
  subject_id : String
  cl : ℝ
  v : ℝ
  rmse : ℝ
  n_obs : ℕ

/-- AgentState from src/poc/agents.py: shared state passed across agent
steps. -/
structure AgentState where
  rows : List Row
  by_subject : List (String × List Row)
  pooled_fit : Option (ℝ × ℝ × ℝ) := none
  results : Option (List FitRow) := none
  last_rmse : Option ℝ := none
  no_improve_count : ℕ := 0
  paper_insights : Option Insights := none

/-- agent_inspect from src/poc/agents.py: placeholder, reads only. -/
def agent_inspect (s : AgentState) : AgentState := s

/-- agent_fit_individual from src/poc/agents.py: per-subject grid-search
fits, iterating subjects sorted by subject_id. -/
noncomputable def agent_fit_individual (s : AgentState) : AgentState :=
  { s with
    results := some ((s.by_subject.mergeSort (fun a b => a.1 ≤ b.1)).map
      (fun p =>
        let fit := grid_search p.2
        { subject_id := p.1
          cl := fit.2.1
          v := fit.2.2
          rmse := rmse_of fit p.2
          n_obs := p.2.length })) }

/-- agent_fit_pooled from src/poc/agents.py: pooled grid-search fit over
all rows. -/
noncomputable def agent_fit_pooled (s : AgentState) : AgentState :=
  { s with pooled_fit := some (grid_search s.rows) }

/-- agent_read_paper from src/poc/agents.py. `call`/`parse` feed the
anthropic path (extract_paper_insights); `localCall` is the outcome of
extract_paper_insights_local, `Except.error` when that path raises. An
error from either path is not caught here and propagates. -/
def agent_read_paper (s : AgentState) (api_key provider : String) (pdfText : String)
    (call : Except ExtFailure String) (parse : String → Option Insights)
    (localCall : Except ExtFailure Insights) : Except ExtFailure AgentState :=
  if s.paper_insights.isSome then Except.ok s
  else if provider = "anthropic" then
    if api_key = "" then Except.ok s
    else (extract_paper_insights pdfText call parse).map
      (fun ins => { s with paper_insights := some ins })
  else if provider = "local" then
    localCall.map (fun ins => { s with paper_insights := some ins })
  else Except.ok s

/-- should_stop from src/poc/agents.py: stop when max_iter is reached or no
improvement for no_improve_stop iterations. The Python function mutates the
state in place; here it returns the decision together with the updated
state. -/
noncomputable def should_stop (s : AgentState) (iteration max_iter no_improve_stop : ℕ) :
    Bool × AgentState :=
  if max_iter ≤ iteration then (true, s)
  else
    match s.pooled_fit with
    | none => (false, s)
    | some pf =>
      let pooled_rmse := rmse_of pf s.rows
      match s.last_rmse with
      | none => (false, { s with last_rmse := some pooled_rmse, no_improve_count := 0 })
      | some last =>
        if pooled_rmse < last then
          (false, { s with last_rmse := some pooled_rmse, no_improve_count := 0 })
        else
          (decide (no_improve_stop ≤ s.no_improve_count + 1),
           { s with no_improve_count := s.no_improve_count + 1 })

/-- _gate_passed from src/poc/agent_poc.py: pass only when pooled RMSE is at
most the threshold. The env-derived threshold (_gate_max_rmse) is a
parameter, `none` when GATE_MAX_RMSE is unset or unparsable. -/
noncomputable def gate_passed (threshold : Option ℝ) (s : AgentState) : Bool :=
  match threshold with
  | none => true
  | some thr =>
    match s.pooled_fit with
    | none => false
    | some pf => decide (rmse_of pf s.rows ≤ thr)

/-- One pass of the while-loop body of run_agent_loop (src/poc/agent_poc.py).
The three fitting agents always run; the paper step runs in both modes (in
parallel mode on a second worker whose join re-raises its exception, in
sequential mode inline), and since the two tasks write disjoint fields the
pipeline-then-paper order is their linearisation. No handler exists in the
loop, so an extraction exception is `Except.error`. In parallel mode a
failed gate breaks out of the loop before the report and before should_stop.
agent_report only writes files and leaves the state unchanged, so it does
not appear. The returned Bool is the decision to leave the loop. -/
noncomputable def run_iteration (parallel : Bool) (threshold : Option ℝ)
    (api_key provider pdfText : String) (call : Except ExtFailure String)
    (parse : String → Option Insights) (localCall : Except ExtFailure Insights)
    (s : AgentState) (iteration max_iter no_improve_stop : ℕ) :
    Except ExtFailure (Bool × AgentState) :=
  let s1 := agent_fit_pooled (agent_fit_individual (agent_inspect s))
  match agent_read_paper s1 api_key provider pdfText call parse localCall with
  | Except.error e => Except.error e
  | Except.ok s2 =>
    if parallel && !gate_passed threshold s2 then Except.ok (true, s2)
    else Except.ok (should_stop s2 iteration max_iter no_improve_stop)

/-- A state with no observations and no fits, used as concrete input in
witnesses. -/
def emptyState : AgentState := { rows := [], by_subject := [] }

/-- A state whose last evaluation strictly improved (a recorded best exists
and a pooled fit is present), used as concrete input in witnesses. -/
noncomputable def improvedState : AgentState :=
  { rows := [], by_subject := [], pooled_fit := some (1, 2, 3), last_rmse := some 5 }

/-- The improvement update of should_stop: record the new best RMSE and
reset the consecutive-no-improvement counter. -/
noncomputable def resetState (s : AgentState) (r : ℝ) : AgentState :=
  { s with last_rmse := some r, no_improve_count := 0 }

/-- The non-improvement update of should_stop: increment the counter and
keep the recorded best. -/
def bumpState (s : AgentState) : AgentState :=
  { s with no_improve_count := s.no_improve_count + 1 }

/-- A concrete observation row used for the stop-predicate trace. -/
def sampleRow : Row :=
  { subject_id := "A", time := 1, conc := 5, dose_mg := 100, condition := "iv", tinf_h := 0 }

/-- Start of the [10.0, 10.0, 10.0] pooled-RMSE trace: one observation and a
pooled fit with SSE 100, so the pooled RMSE is sqrt(100/1) = 10 at every
evaluation. -/
def traceState : AgentState :=
  { rows := [sampleRow], by_subject := [("A", [sampleRow])], pooled_fit := some (100, 2, 3) }

/-- Trace state after the first evaluation: best 10 recorded, counter 0. -/
def traceState1 : AgentState := { traceState with last_rmse := some 10, no_improve_count := 0 }

/-- Trace state after the second evaluation: tie, counter 1. -/
def traceState2 : AgentState := { traceState1 with no_improve_count := 1 }

/-- Trace state after the third evaluation: tie, counter 2, halt. -/
def traceState3 : AgentState := { traceState1 with no_improve_count := 2 }

/-! ## Theorems -/

/-- C6: for every run state, every no-improvement threshold, and every
iteration count at least max_iterations, the stop predicate returns true
(with the state unchanged), regardless of improvement history. -/
theorem should_stop_iteration_limit (s : AgentState) (iteration max_iter no_improve_stop : ℕ)
    (h : max_iter ≤ iteration) :
    should_stop s iteration max_iter no_improve_stop = (true, s) := by
  simp [should_stop, h]

/-- C6 witness: with max_iterations = 3 the controller halts at iteration
index 3 even on a state whose last pooled RMSE strictly improved. -/
theorem should_stop_iteration_limit_witness :
    should_stop improvedState 3 3 2 = (true, improvedState) :=
  should_stop_iteration_limit improvedState 3 3 2 (by norm_num)

/-- C8: for positive cl and v, the forward model at time 0 gives dose/v in
the bolus case (infusion_duration ≤ 0) and 0 in the infusion case. -/
theorem predict_conc_at_time_zero (cl v dose_mg tinf_h : ℝ) (hcl : 0 < cl) (hv : 0 < v) :
    predict_conc 0 dose_mg tinf_h cl v = if tinf_h ≤ 0 then dose_mg / v else 0 := by
  have hguard : ¬(cl ≤ 0 ∨ v ≤ 0) := by push_neg; exact ⟨hcl, hv⟩
  by_cases ht : tinf_h ≤ 0
  · simp [predict_conc, hguard, ht]
  · have ht0 : (0 : ℝ) ≤ tinf_h := le_of_lt (not_le.mp ht)
    simp [predict_conc, hguard, ht, ht0]

/-- C8 witness: at cl = 1, v = 2, dose = 4, tinf = 0 the value at time 0 is
4 / 2 = 2. -/
theorem predict_conc_at_time_zero_witness : predict_conc 0 4 0 1 2 = 2 := by
  have h := predict_conc_at_time_zero 1 2 4 0 (by norm_num) (by norm_num)
  norm_num at h
  exact h

/-- C10: should_stop only ever touches last_rmse and no_improve_count: the
rows, by_subject, pooled_fit, results and paper_insights fields are
unchanged by every call; when the iteration limit is reached it returns
true with the state completely unchanged, and when the pooled fit is absent
below the limit it returns false with the state completely unchanged. -/
theorem should_stop_frame (s : AgentState) (iteration max_iter no_improve_stop : ℕ) :
    ((should_stop s iteration max_iter no_improve_stop).2.rows = s.rows ∧
      (should_stop s iteration max_iter no_improve_stop).2.by_subject = s.by_subject ∧
      (should_stop s iteration max_iter no_improve_stop).2.pooled_fit = s.pooled_fit ∧
      (should_stop s iteration max_iter no_improve_stop).2.results = s.results ∧
      (should_stop s iteration max_iter no_improve_stop).2.paper_insights = s.paper_insights) ∧
    (max_iter ≤ iteration → should_stop s iteration max_iter no_improve_stop = (true, s)) ∧
    (iteration < max_iter → s.pooled_fit = none →
      should_stop s iteration max_iter no_improve_stop = (false, s)) := by
  refine ⟨?_, ?_, ?_⟩
  · by_cases h1 : max_iter ≤ iteration
    · simp [should_stop, h1]
    · rcases hpf : s.pooled_fit with _ | pf
      · simp [should_stop, h1, hpf]
      · rcases hlr : s.last_rmse with _ | last
        · simp [should_stop, h1, hpf, hlr]
        · simp [should_stop, h1, hpf, hlr]
          split <;> simp
  · intro h; simp [should_stop, h]
  · intro h hpf; simp [should_stop, not_le.mpr h, hpf]

/-- C10 witness: on a state with no pooled fit, below the iteration limit,
the call returns false and leaves the state untouched. -/
theorem should_stop_frame_witness :
    should_stop emptyState 0 3 2 = (false, emptyState) :=
  (should_stop_frame emptyState 0 3 2).2.2 (by norm_num) rfl

/-- The pooled RMSE of the trace fit is 10. -/
theorem rmse_of_trace : rmse_of (100, 2, 3) [sampleRow] = 10 := by
  have h1 : (((max (1 : ℕ) 1 : ℕ)) : ℝ) = 1 := by norm_num
  show Real.sqrt ((100 : ℝ) / (((max ([sampleRow].length) 1 : ℕ)) : ℝ)) = 10
  rw [show ([sampleRow].length) = 1 from rfl, h1, div_one,
    show (100 : ℝ) = 10 ^ 2 by norm_num, Real.sqrt_sq (by norm_num : (0:ℝ) ≤ 10)]

/-- C4: with a pooled fit present and the iteration below the limit, the
stop predicate resets the counter to 0 and returns false exactly when the
new pooled RMSE strictly improves on the recorded best (a missing best
counts as improvement), and otherwise — ties included — increments the
counter by 1 and returns true exactly when the incremented counter reaches
the threshold; consequently the pooled RMSE trace [10, 10, 10] with
threshold 2 gives counters 0, 1, 2 and halts when the counter reaches 2. -/
theorem should_stop_no_improve_spec :
    (∀ (s : AgentState) (iteration max_iter no_improve_stop : ℕ) (pf : ℝ × ℝ × ℝ),
      s.pooled_fit = some pf → iteration < max_iter →
      ((s.last_rmse = none ∨ ∃ b, s.last_rmse = some b ∧ rmse_of pf s.rows < b) →
        should_stop s iteration max_iter no_improve_stop =
          (false, resetState s (rmse_of pf s.rows))) ∧
      (∀ b, s.last_rmse = some b → ¬ rmse_of pf s.rows < b →
        should_stop s iteration max_iter no_improve_stop =
          (decide (no_improve_stop ≤ s.no_improve_count + 1), bumpState s) ∧
        ((should_stop s iteration max_iter no_improve_stop).1 = true ↔
          no_improve_stop ≤ s.no_improve_count + 1))) ∧
    (should_stop traceState 0 10 2 = (false, traceState1) ∧
      should_stop traceState1 1 10 2 = (false, traceState2) ∧
      should_stop traceState2 2 10 2 = (true, traceState3)) := by
  have hgen : ∀ (s : AgentState) (iteration max_iter no_improve_stop : ℕ) (pf : ℝ × ℝ × ℝ),
      s.pooled_fit = some pf → iteration < max_iter →
      ((s.last_rmse = none ∨ ∃ b, s.last_rmse = some b ∧ rmse_of pf s.rows < b) →
        should_stop s iteration max_iter no_improve_stop =
          (false, resetState s (rmse_of pf s.rows))) ∧
      (∀ b, s.last_rmse = some b → ¬ rmse_of pf s.rows < b →
        should_stop s iteration max_iter no_improve_stop =
          (decide (no_improve_stop ≤ s.no_improve_count + 1), bumpState s) ∧
        ((should_stop s iteration max_iter no_improve_stop).1 = true ↔
          no_improve_stop ≤ s.no_improve_count + 1)) := by
    intro s iteration max_iter no_improve_stop pf hpf hit
    have hmi : ¬ max_iter ≤ iteration := not_le.mpr hit
    constructor
    · rintro (hnone | ⟨b, hb, hlt⟩)
      · simp [should_stop, hmi, hpf, hnone, resetState]
      · simp [should_stop, hmi, hpf, hb, hlt, resetState]
    · intro b hb hnlt
      constructor
      · simp [should_stop, hmi, hpf, hb, hnlt, bumpState]
      · simp [should_stop, hmi, hpf, hb, hnlt]
  refine ⟨hgen, ?_, ?_, ?_⟩
  · have h := (hgen traceState 0 10 2 (100, 2, 3) rfl (by norm_num)).1 (Or.inl rfl)
    rw [h]
    simp [resetState, traceState, traceState1, rmse_of_trace]
  · have h := (hgen traceState1 1 10 2 (100, 2, 3) rfl (by norm_num)).2 10 rfl
      (by rw [show traceState1.rows = [sampleRow] from rfl, rmse_of_trace]; exact lt_irrefl 10)
    rw [h.1]
    simp [bumpState, traceState1, traceState2]
  · have h := (hgen traceState2 2 10 2 (100, 2, 3) rfl (by norm_num)).2 10 rfl
      (by rw [show traceState2.rows = [sampleRow] from rfl, rmse_of_trace]; exact lt_irrefl 10)
    rw [h.1]
    simp [bumpState, traceState1, traceState2, traceState3]

/-- C4 witness: the first trace evaluation has no recorded best, so it
counts as an improvement: the call returns false with counter 0 and best
10 recorded. -/
theorem should_stop_no_improve_spec_witness :
    should_stop traceState 0 10 2 = (false, resetState traceState (rmse_of (100, 2, 3) traceState.rows)) :=
  (should_stop_no_improve_spec.1 traceState 0 10 2 (100, 2, 3) rfl (by norm_num)).1 (Or.inl rfl)

/-- C2 counterexample: on a run state with no insights yet, anthropic
provider, a non-empty API key and non-blank PDF text, a network failure
raised inside the extraction call is NOT recovered: it propagates out of
the loop body as an error, so the iteration does not complete and no
insight-absent state is produced. -/
theorem paper_failure_counterexample :
    run_iteration false none "k" "anthropic" "t" (Except.error ExtFailure.network)
      (fun _ => none) (Except.ok []) emptyState 0 3 2 = Except.error ExtFailure.network := by
  have hb : is_blank "t" = false := by decide
  simp [run_iteration, agent_read_paper, extract_paper_insights, Except.map, agent_inspect,
    agent_fit_individual, agent_fit_pooled, emptyState, hb]

/-- C2 amended: only a parse failure inside the extraction call is recovered
locally (the body is kept under a raw key and the step returns normally);
a network or credential failure raised by the external client propagates
out of agent_read_paper — which has no handler, as the loop body has none —
and so terminates the iteration and the loop in either mode. -/
theorem paper_failure_behaviour :
    (∀ (s : AgentState) (api_key pdfText content : String)
        (parse : String → Option Insights) (localCall : Except ExtFailure Insights),
      s.paper_insights = none → api_key ≠ "" → is_blank pdfText = false → parse content = none →
      agent_read_paper s api_key "anthropic" pdfText (Except.ok content) parse localCall =
        Except.ok { s with paper_insights := some [("raw", content)] }) ∧
    (∀ (s : AgentState) (api_key pdfText : String) (e : ExtFailure)
        (parse : String → Option Insights) (localCall : Except ExtFailure Insights),
      s.paper_insights = none → api_key ≠ "" → is_blank pdfText = false →
      agent_read_paper s api_key "anthropic" pdfText (Except.error e) parse localCall =
        Except.error e) ∧
    (∀ (parallel : Bool) (threshold : Option ℝ) (api_key pdfText : String) (e : ExtFailure)
        (parse : String → Option Insights) (localCall : Except ExtFailure Insights)
        (s : AgentState) (iteration max_iter no_improve_stop : ℕ),
      s.paper_insights = none → api_key ≠ "" → is_blank pdfText = false →
      run_iteration parallel threshold api_key "anthropic" pdfText (Except.error e) parse
        localCall s iteration max_iter no_improve_stop = Except.error e) := by
  refine ⟨?_, ?_, ?_⟩
  · intro s api_key pdfText content parse localCall hnone hkey htrim hparse
    simp [agent_read_paper, extract_paper_insights, Except.map, hnone, hkey, htrim, hparse]
  · intro s api_key pdfText e parse localCall hnone hkey htrim
    simp [agent_read_paper, extract_paper_insights, Except.map, hnone, hkey, htrim]
  · intro parallel threshold api_key pdfText e parse localCall s
      iteration max_iter no_improve_stop hnone hkey htrim
    simp [run_iteration, agent_read_paper, extract_paper_insights, Except.map, agent_inspect,
      agent_fit_individual, agent_fit_pooled, hnone, hkey, htrim]

/-- C2 witness: the network-failure propagation at a concrete input. -/
theorem paper_failure_behaviour_witness :
    agent_read_paper emptyState "k" "anthropic" "t" (Except.error ExtFailure.network)
      (fun _ => none) (Except.ok []) = Except.error ExtFailure.network :=
  paper_failure_behaviour.2.1 emptyState "k" "t" ExtFailure.network (fun _ => none)
    (Except.ok []) rfl (by decide) (by decide)

/-- C5: the quality gate passes whenever no RMSE threshold is configured;
with a threshold it fails when the pooled fit is absent, and otherwise
passes exactly when the pooled RMSE is at most the threshold. In the loop
body, a failed gate in concurrent mode ends the loop right away (before
should_stop runs, with the state as the iteration left it), and in
sequential mode the outcome never depends on the gate threshold. -/
theorem gate_passed_spec :
    (∀ s : AgentState, gate_passed none s = true) ∧
    (∀ (thr : ℝ) (s : AgentState), s.pooled_fit = none → gate_passed (some thr) s = false) ∧
    (∀ (thr : ℝ) (s : AgentState) (pf : ℝ × ℝ × ℝ), s.pooled_fit = some pf →
      (gate_passed (some thr) s = true ↔
        Real.sqrt (pf.1 / ((max s.rows.length 1 : ℕ) : ℝ)) ≤ thr)) ∧
    (∀ (pf : ℝ × ℝ × ℝ) (rows : List Row),
      rmse_of pf rows = Real.sqrt (pf.1 / ((max rows.length 1 : ℕ) : ℝ))) ∧
    (∀ (threshold : Option ℝ) (api_key provider pdfText : String)
        (call : Except ExtFailure String) (parse : String → Option Insights)
        (localCall : Except ExtFailure Insights) (s s2 : AgentState)
        (iteration max_iter no_improve_stop : ℕ),
      agent_read_paper (agent_fit_pooled (agent_fit_individual (agent_inspect s)))
          api_key provider pdfText call parse localCall = Except.ok s2 →
      gate_passed threshold s2 = false →
      run_iteration true threshold api_key provider pdfText call parse localCall
          s iteration max_iter no_improve_stop = Except.ok (true, s2)) ∧
    (∀ (thr thr2 : Option ℝ) (api_key provider pdfText : String)
        (call : Except ExtFailure String) (parse : String → Option Insights)
        (localCall : Except ExtFailure Insights) (s : AgentState)
        (iteration max_iter no_improve_stop : ℕ),
      run_iteration false thr api_key provider pdfText call parse localCall
          s iteration max_iter no_improve_stop =
        run_iteration false thr2 api_key provider pdfText call parse localCall
          s iteration max_iter no_improve_stop) := by
  refine ⟨fun s => rfl, fun thr s hpf => ?_, fun thr s pf hpf => ?_, fun pf rows => rfl, ?_, ?_⟩
  · simp [gate_passed, hpf]
  · simp [gate_passed, hpf, rmse_of]
  · intro threshold api_key provider pdfText call parse localCall s s2
      iteration max_iter no_improve_stop hread hgate
    simp [run_iteration, hread, hgate]
  · intro thr thr2 api_key provider pdfText call parse localCall s
      iteration max_iter no_improve_stop
    simp [run_iteration]

/-- C5 witness: with no threshold the gate passes on the empty state; with
threshold 5 and no pooled fit it fails. -/
theorem gate_passed_spec_witness :
    gate_passed none emptyState = true ∧ gate_passed (some 5) emptyState = false :=
  ⟨gate_passed_spec.1 emptyState, gate_passed_spec.2.1 5 emptyState rfl⟩

/-- The map x ↦ x * exp (-x) is strictly increasing on [0, 1]. -/
theorem mul_exp_neg_strictMonoOn : StrictMonoOn (fun x : ℝ => x * Real.exp (-x)) (Set.Icc 0 1) := by
  apply strictMonoOn_of_deriv_pos (convex_Icc 0 1)
  · exact (continuous_id.mul (Real.continuous_exp.comp continuous_neg)).continuousOn
  · intro x hx
    rw [interior_Icc] at hx
    have hd : HasDerivAt (fun y : ℝ => y * Real.exp (-y))
        (1 * Real.exp (-x) + x * (Real.exp (-x) * (-1))) x := by
      have h1 : HasDerivAt (fun y : ℝ => y) 1 x := hasDerivAt_id x
      have hneg : HasDerivAt (fun y : ℝ => -y) (-1) x := (hasDerivAt_id x).neg
      have h2 : HasDerivAt (fun y : ℝ => Real.exp (-y)) (Real.exp (-x) * (-1)) x :=
        (Real.hasDerivAt_exp (-x)).comp x hneg
      exact h1.mul h2
    rw [hd.deriv]
    have hep := Real.exp_pos (-x)
    nlinarith [hx.1, hx.2]

/-- In the bolus branch the forward model equals (dose/v)·exp(-cl·time/v). -/
theorem predict_conc_bolus (time dose tinf cl v : ℝ) (hcl : 0 < cl) (hv : 0 < v)
    (htinf : tinf ≤ 0) :
    predict_conc time dose tinf cl v = (dose / v) * Real.exp (-(cl * time / v)) := by
  have hg : ¬(cl ≤ 0 ∨ v ≤ 0) := by push_neg; exact ⟨hcl, hv⟩
  simp only [predict_conc, hg, htinf, if_true, if_false, ite_true, ite_false]
  rw [show -(cl / v) * time = -(cl * time / v) by ring]

/-- C3 counterexample: at cl = 1, dose = 100, time = 10 (bolus, tinf = 0),
with 0 < v1 = 1 < v2 = 2, the predicted concentration INCREASES with v
(100·e⁻¹⁰ < 50·e⁻⁵), so the claimed strict decrease fails even though
every hypothesis of the claim holds at this input. -/
theorem predict_conc_v_decrease_counterexample :
    (0 : ℝ) < 1 ∧ (0 : ℝ) < 10 ∧ (0 : ℝ) ≤ 0 ∧ (0 : ℝ) < 1 ∧ (1 : ℝ) < 2 ∧
    ¬ predict_conc 10 100 0 1 2 < predict_conc 10 100 0 1 1 := by
  have h1 : predict_conc 10 100 0 1 1 = (100 / 1) * Real.exp (-(1 * 10 / 1)) :=
    predict_conc_bolus 10 100 0 1 1 (by norm_num) (by norm_num) (le_refl 0)
  have h2 : predict_conc 10 100 0 1 2 = (100 / 2) * Real.exp (-(1 * 10 / 2)) :=
    predict_conc_bolus 10 100 0 1 2 (by norm_num) (by norm_num) (le_refl 0)
  have h6 : (2 : ℝ) < Real.exp 5 := by
    have := Real.add_one_le_exp (5 : ℝ)
    linarith
  have hprod : Real.exp (-5) * Real.exp 5 = 1 := by
    rw [← Real.exp_add]
    norm_num
  have hhalf : Real.exp (-5 : ℝ) < 1 / 2 := by
    nlinarith [Real.exp_pos (-5 : ℝ)]
  have h10 : Real.exp (-10 : ℝ) = Real.exp (-5) * Real.exp (-5) := by
    rw [← Real.exp_add]
    norm_num
  have hkey : predict_conc 10 100 0 1 1 < predict_conc 10 100 0 1 2 := by
    rw [h1, h2]
    norm_num
    rw [h10]
    nlinarith [Real.exp_pos (-5 : ℝ)]
  exact ⟨by norm_num, by norm_num, le_refl 0, by norm_num, by norm_num, lt_asymm hkey⟩

/-- C3 amended: in the bolus case with positive dose, the predicted
concentration is strictly decreasing in v on the region v ≥ cl·time: for
cl·time ≤ v1 < v2, predict(v2) < predict(v1). (Without dose > 0 the two
values are equal at dose = 0, and for v1 < cl·time the order can reverse,
as the counterexample shows.) -/
theorem predict_conc_bolus_strict_anti (time dose tinf cl v1 v2 : ℝ)
    (hcl : 0 < cl) (htime : 0 < time) (hdose : 0 < dose) (htinf : tinf ≤ 0)
    (hv1 : cl * time ≤ v1) (h12 : v1 < v2) :
    predict_conc time dose tinf cl v2 < predict_conc time dose tinf cl v1 := by
  have ha0 : 0 < cl * time := mul_pos hcl htime
  have hv1p : 0 < v1 := lt_of_lt_of_le ha0 hv1
  have hv2p : 0 < v2 := hv1p.trans h12
  rw [predict_conc_bolus time dose tinf cl v1 hcl hv1p htinf,
    predict_conc_bolus time dose tinf cl v2 hcl hv2p htinf]
  have hbridge : ∀ v : ℝ, 0 < v →
      (dose / v) * Real.exp (-(cl * time / v)) =
        (dose / (cl * time)) * ((cl * time / v) * Real.exp (-(cl * time / v))) := by
    intro v hv
    have hdv : (dose / (cl * time)) * (cl * time / v) = dose / v := by
      rw [div_mul_div_comm, mul_comm dose (cl * time), mul_div_mul_left _ _ ha0.ne']
    rw [← mul_assoc, hdv]
  rw [hbridge v1 hv1p, hbridge v2 hv2p]
  apply mul_lt_mul_of_pos_left _ (div_pos hdose ha0)
  have hm2 : cl * time / v2 ∈ Set.Icc (0 : ℝ) 1 :=
    ⟨le_of_lt (div_pos ha0 hv2p), le_of_lt ((div_lt_one hv2p).mpr (lt_of_le_of_lt hv1 h12))⟩
  have hm1 : cl * time / v1 ∈ Set.Icc (0 : ℝ) 1 :=
    ⟨le_of_lt (div_pos ha0 hv1p), (div_le_one hv1p).mpr hv1⟩
  have hlt : cl * time / v2 < cl * time / v1 := div_lt_div_of_pos_left ha0 hv1p h12
  exact mul_exp_neg_strictMonoOn hm2 hm1 hlt

/-- C3 witness: at cl = 1, time = 1, dose = 1 (so cl·time = 1 ≤ v1 = 1 < v2 = 2)
the amended strict decrease holds. -/
theorem predict_conc_bolus_strict_anti_witness :
    predict_conc 1 1 0 1 2 < predict_conc 1 1 0 1 1 :=
  predict_conc_bolus_strict_anti 1 1 0 1 1 2 (by norm_num) (by norm_num) (by norm_num)
    (le_refl 0) (by norm_num) (by norm_num)

/-- Invariant of the grid_search fold from a live accumulator: the result
is at most the accumulator and every scanned value, and it is either the
kept accumulator or the first strictly-better element. -/
theorem foldl_selStep_some {α : Type} (f : α → ℝ) :
    ∀ (l : List α) (s : ℝ) (p : α),
      ∃ s2 p2, l.foldl (selStep f) (some (s, p)) = some (s2, p2) ∧
        s2 ≤ s ∧ (∀ x ∈ l, s2 ≤ f x) ∧
        ((s2 = s ∧ p2 = p) ∨
          ∃ l1 l2, l = l1 ++ p2 :: l2 ∧ f p2 = s2 ∧ s2 < s ∧ ∀ x ∈ l1, s2 < f x) := by
  intro l
  induction l with
  | nil =>
    intro s p
    exact ⟨s, p, rfl, le_refl s, by simp, Or.inl ⟨rfl, rfl⟩⟩
  | cons x xs ih =>
    intro s p
    by_cases hx : f x < s
    · have hstep : selStep f (some (s, p)) x = some (f x, x) := by simp [selStep, hx]
      obtain ⟨s2, p2, heq, hle, hall, hcase⟩ := ih (f x) x
      refine ⟨s2, p2, ?_, hle.trans hx.le, ?_, Or.inr ?_⟩
      · rw [List.foldl_cons, hstep]
        exact heq
      · intro y hy
        rcases List.mem_cons.mp hy with rfl | hy
        · exact hle
        · exact hall y hy
      · rcases hcase with ⟨hs2, hp2⟩ | ⟨l1, l2, hsplit, hfp, hlt, hbefore⟩
        · refine ⟨[], xs, by simp [hp2], ?_, ?_, by simp⟩
          · rw [hp2, ← hs2]
          · rw [hs2]
            exact hx
        · refine ⟨x :: l1, l2, by simp [hsplit], hfp, hlt.trans hx, ?_⟩
          intro y hy
          rcases List.mem_cons.mp hy with rfl | hy
          · exact hlt
          · exact hbefore y hy
    · have hstep : selStep f (some (s, p)) x = some (s, p) := by simp [selStep, hx]
      obtain ⟨s2, p2, heq, hle, hall, hcase⟩ := ih s p
      refine ⟨s2, p2, ?_, hle, ?_, ?_⟩
      · rw [List.foldl_cons, hstep]
        exact heq
      · intro y hy
        rcases List.mem_cons.mp hy with rfl | hy
        · exact hle.trans (not_lt.mp hx)
        · exact hall y hy
      · rcases hcase with ⟨hs2, hp2⟩ | ⟨l1, l2, hsplit, hfp, hlt, hbefore⟩
        · exact Or.inl ⟨hs2, hp2⟩
        · refine Or.inr ⟨x :: l1, l2, by simp [hsplit], hfp, hlt, ?_⟩
          intro y hy
          rcases List.mem_cons.mp hy with rfl | hy
          · exact hlt.trans_le (not_lt.mp hx)
          · exact hbefore y hy

/-- The grid_search fold over a nonempty list lands on the first minimiser:
the result value bounds every scanned value and everything strictly before
the chosen element is strictly worse. -/
theorem foldl_selStep_cons {α : Type} (f : α → ℝ) (x : α) (xs : List α) :
    ∃ s2 p2, ((x :: xs).foldl (selStep f) none) = some (s2, p2) ∧
      f p2 = s2 ∧ (∀ y ∈ x :: xs, s2 ≤ f y) ∧
      ∃ l1 l2, x :: xs = l1 ++ p2 :: l2 ∧ ∀ y ∈ l1, s2 < f y := by
  obtain ⟨s2, p2, heq, hle, hall, hcase⟩ := foldl_selStep_some f xs (f x) x
  refine ⟨s2, p2, ?_, ?_, ?_, ?_⟩
  · rw [List.foldl_cons]
    exact heq
  · rcases hcase with ⟨hs2, hp2⟩ | ⟨l1, l2, hsplit, hfp, hlt, hbefore⟩
    · rw [hp2, hs2]
    · exact hfp
  · intro y hy
    rcases List.mem_cons.mp hy with rfl | hy
    · exact hle
    · exact hall y hy
  · rcases hcase with ⟨hs2, hp2⟩ | ⟨l1, l2, hsplit, hfp, hlt, hbefore⟩
    · exact ⟨[], xs, by simp [hp2], by simp⟩
    · refine ⟨x :: l1, l2, by simp [hsplit], ?_⟩
      intro y hy
      rcases List.mem_cons.mp hy with rfl | hy
      · exact hlt
      · exact hbefore y hy

/-- The CL grid has 25 points. -/
theorem cl_grid_length : cl_grid.length = 25 := by
  unfold cl_grid logspace
  rw [if_neg (by norm_num : ¬ (25 : ℕ) ≤ 1)]
  dsimp only
  rw [List.length_map, List.length_range]

/-- The V grid has 25 points. -/
theorem v_grid_length : v_grid.length = 25 := by
  unfold v_grid logspace
  rw [if_neg (by norm_num : ¬ (25 : ℕ) ≤ 1)]
  dsimp only
  rw [List.length_map, List.length_range]

/-- The grid holds 625 candidate pairs. -/
theorem gridPairs_length : gridPairs.length = 625 := by
  rw [gridPairs, List.length_flatMap]
  have h : List.map (List.length ∘ fun cl => List.map (fun v => (cl, v)) v_grid) cl_grid =
      List.map (fun _ : ℝ => 25) cl_grid := by
    apply List.map_congr_left
    intro cl _
    simp [Function.comp, List.length_map, v_grid_length]
  rw [h, List.map_const', cl_grid_length, List.sum_replicate, smul_eq_mul]

/-- The first CL grid point is 10^(log10 0.1) = 0.1. -/
theorem cl_grid_cons : ∃ t, cl_grid = (0.1 : ℝ) :: t := by
  rw [← List.head?_eq_some_iff]
  unfold cl_grid logspace
  rw [if_neg (by norm_num : ¬ (25 : ℕ) ≤ 1)]
  dsimp only
  rw [show (25 : ℕ) = 24 + 1 from rfl, List.range_succ_eq_map, List.map_cons,
    List.head?_cons]
  congr 1
  norm_num

/-- The first V grid point is 10^(log10 1) = 1. -/
theorem v_grid_cons : ∃ t, v_grid = (1 : ℝ) :: t := by
  rw [← List.head?_eq_some_iff]
  unfold v_grid logspace
  rw [if_neg (by norm_num : ¬ (25 : ℕ) ≤ 1)]
  dsimp only
  rw [show (25 : ℕ) = 24 + 1 from rfl, List.range_succ_eq_map, List.map_cons,
    List.head?_cons]
  congr 1
  norm_num [Real.logb_one]

/-- The grid starts with the pair (cl, v) = (0.1, 1). -/
theorem gridPairs_cons : ∃ rest, gridPairs = ((0.1 : ℝ), (1 : ℝ)) :: rest := by
  obtain ⟨t, ht⟩ := cl_grid_cons
  obtain ⟨tv, htv⟩ := v_grid_cons
  refine ⟨tv.map (fun v => ((0.1 : ℝ), v)) ++
    t.flatMap (fun cl => v_grid.map (fun v => (cl, v))), ?_⟩
  unfold gridPairs
  rw [ht, List.flatMap_cons]
  nth_rewrite 1 [htv]
  rw [List.map_cons, List.cons_append]

/-- C1: grid_search returns a triple (sse, cl, v) with (cl, v) a pair of
the 25×25 log-spaced grid (outer loop over CL, inner over V), sse the SSE
of that pair, sse at most the SSE of every one of the 625 grid pairs, and
every pair strictly earlier in iteration order strictly worse — so the
returned pair is the first minimiser. -/
theorem grid_search_spec (rows : List Row) :
    cl_grid.length = 25 ∧ v_grid.length = 25 ∧ gridPairs.length = 625 ∧
    (grid_search rows).1 = sse_for rows (grid_search rows).2.1 (grid_search rows).2.2 ∧
    (∀ q ∈ gridPairs, (grid_search rows).1 ≤ sse_for rows q.1 q.2) ∧
    ∃ l1 l2, gridPairs = l1 ++ ((grid_search rows).2.1, (grid_search rows).2.2) :: l2 ∧
      ∀ q ∈ l1, (grid_search rows).1 < sse_for rows q.1 q.2 := by
  obtain ⟨rest, hg⟩ := gridPairs_cons
  obtain ⟨s2, p2, heq, hfp, hall, l1, l2, hsplit, hbefore⟩ :=
    foldl_selStep_cons (fun p => sse_for rows p.1 p.2) (0.1, 1) rest
  have hgs : grid_search rows = (s2, p2.1, p2.2) := by
    unfold grid_search
    rw [hg, heq]
  have hpair : ((grid_search rows).2.1, (grid_search rows).2.2) = p2 := by
    rw [hgs]
  refine ⟨cl_grid_length, v_grid_length, gridPairs_length, ?_, ?_, l1, l2, ?_, ?_⟩
  · simp only [hgs]
    exact hfp.symm
  · intro q hq
    rw [hg] at hq
    simp only [hgs]
    exact hall q hq
  · rw [hpair, hg]
    exact hsplit
  · intro q hq
    simp only [hgs]
    exact hbefore q hq

/-- C1 witness: on the empty observation list, the returned SSE is at most
the SSE of the first grid pair (0.1, 1). -/
theorem grid_search_spec_witness :
    (grid_search []).1 ≤ sse_for [] (0.1 : ℝ) (1 : ℝ) := by
  obtain ⟨rest, hg⟩ := gridPairs_cons
  exact (grid_search_spec []).2.2.2.2.1 ((0.1 : ℝ), (1 : ℝ)) (by rw [hg]; simp)

/-- C7: on the empty observation list every grid pair has SSE 0 and the
tie-break keeps the first pair, so grid_search returns (0, 0.1, 1). -/
theorem grid_search_empty : grid_search [] = (0, 0.1, 1) := by
  obtain ⟨rest, hg⟩ := gridPairs_cons
  obtain ⟨s2, p2, heq, hfp, hall, l1, l2, hsplit, hbefore⟩ :=
    foldl_selStep_cons (fun p => sse_for ([] : List Row) p.1 p.2) (0.1, 1) rest
  have hs0 : s2 = 0 := by
    have h0 : sse_for ([] : List Row) p2.1 p2.2 = 0 := rfl
    rw [h0] at hfp
    exact hfp.symm
  have hl1 : l1 = [] := by
    cases l1 with
    | nil => rfl
    | cons q l =>
      have hq := hbefore q (by simp)
      have h0 : sse_for ([] : List Row) q.1 q.2 = 0 := rfl
      rw [hs0, h0] at hq
      exact absurd hq (lt_irrefl 0)
  rw [hl1] at hsplit
  simp only [List.nil_append, List.cons.injEq] at hsplit
  have hgs : grid_search [] = (s2, p2.1, p2.2) := by
    unfold grid_search
    rw [hg, heq]
  rw [hgs, hs0, ← hsplit.1]

/-- Membership in insKey. -/
theorem mem_insKey (k k2 : String) (ks : List String) :
    k ∈ insKey ks k2 ↔ k ∈ ks ∨ k = k2 := by
  unfold insKey
  split
  · rename_i h2
    constructor
    · exact Or.inl
    · rintro (h | rfl)
      · exact h
      · exact h2
  · simp [List.mem_append]

/-- Unfolding keysOfFrom over a cons. -/
theorem keysOfFrom_cons (ks : List String) (r : Row) (rs : List Row) :
    keysOfFrom ks (r :: rs) = keysOfFrom (insKey ks r.subject_id) rs := rfl

/-- Unfolding keysOfFrom over an append. -/
theorem keysOfFrom_append (ks : List String) (l1 l2 : List Row) :
    keysOfFrom ks (l1 ++ l2) = keysOfFrom (keysOfFrom ks l1) l2 := by
  unfold keysOfFrom
  rw [List.foldl_append]

/-- Membership in keysOfFrom: an initial key or the subject of some row. -/
theorem mem_keysOfFrom (k : String) (rows : List Row) :
    ∀ ks, k ∈ keysOfFrom ks rows ↔ k ∈ ks ∨ ∃ r ∈ rows, r.subject_id = k := by
  induction rows with
  | nil => intro ks; simp [keysOfFrom]
  | cons r rs ih =>
    intro ks
    rw [keysOfFrom_cons, ih, mem_insKey]
    simp only [List.mem_cons]
    constructor
    · rintro ((h | rfl) | ⟨r2, h2, h3⟩)
      · exact Or.inl h
      · exact Or.inr ⟨r, Or.inl rfl, rfl⟩
      · exact Or.inr ⟨r2, Or.inr h2, h3⟩
    · rintro (h | ⟨r2, (rfl | h2), h3⟩)
      · exact Or.inl (Or.inl h)
      · exact Or.inl (Or.inr h3.symm)
      · exact Or.inr ⟨r2, h2, h3⟩

/-- Membership in keysOf is having a row with that subject. -/
theorem mem_keysOf (k : String) (rows : List Row) :
    k ∈ keysOf rows ↔ ∃ r ∈ rows, r.subject_id = k := by
  have h : keysOf rows = keysOfFrom [] rows := rfl
  rw [h, mem_keysOfFrom]
  simp

/-- keysOfFrom preserves freedom from duplicates. -/
theorem nodup_keysOfFrom (rows : List Row) :
    ∀ ks : List String, ks.Nodup → (keysOfFrom ks rows).Nodup := by
  induction rows with
  | nil => intro ks h; exact h
  | cons r rs ih =>
    intro ks h
    rw [keysOfFrom_cons]
    apply ih
    unfold insKey
    split
    · exact h
    · rename_i hnm
      rw [← List.concat_eq_append]
      exact List.Nodup.concat hnm h

/-- The first-seen key list has no duplicates. -/
theorem nodup_keysOf (rows : List Row) : (keysOf rows).Nodup :=
  nodup_keysOfFrom rows [] List.nodup_nil

/-- A subject absent from the key list filters to the empty sublist. -/
theorem filter_eq_nil_of_not_mem_keysOf {k : String} {rows : List Row}
    (h : k ∉ keysOf rows) : rows.filter (fun r => r.subject_id = k) = [] := by
  rw [List.filter_eq_nil_iff]
  intro r hr
  simp only [decide_eq_true_eq]
  intro heq
  exact h ((mem_keysOf k rows).mpr ⟨r, hr, heq⟩)

/-- Closed form of group_by_subject: the association list pairs each
first-seen subject id with the ordered filter of its rows. -/
theorem group_eq_map_filter (rows : List Row) :
    group_by_subject rows =
      (keysOf rows).map (fun k => (k, rows.filter (fun r => r.subject_id = k))) := by
  induction rows using List.reverseRecOn with
  | nil => rfl
  | append_singleton rs r ih =>
    have hg : group_by_subject (rs ++ [r]) = addRow (group_by_subject rs) r := by
      unfold group_by_subject
      rw [List.foldl_append, List.foldl_cons, List.foldl_nil]
    have hk : keysOf (rs ++ [r]) = insKey (keysOf rs) r.subject_id := by
      show keysOfFrom [] (rs ++ [r]) = _
      rw [keysOfFrom_append]
      rfl
    by_cases hmem : r.subject_id ∈ keysOf rs
    · have hany : (group_by_subject rs).any (fun p => p.1 = r.subject_id) = true := by
        rw [ih]
        refine List.any_eq_true.mpr ⟨(r.subject_id, rs.filter (fun r2 => r2.subject_id = r.subject_id)), List.mem_map.mpr ⟨r.subject_id, hmem, rfl⟩, by simp⟩
      rw [hg, addRow, if_pos hany, ih, hk, insKey, if_pos hmem, List.map_map]
      apply List.map_congr_left
      intro k hkm
      simp only [Function.comp_apply]
      by_cases hkr : k = r.subject_id
      · rw [if_pos (by simpa using hkr), List.filter_append]
        subst hkr
        simp [List.filter_cons]
      · rw [if_neg (by simpa using hkr), List.filter_append]
        have hne : ¬ (r.subject_id = k) := fun hh => hkr hh.symm
        simp [List.filter_cons, hne]
    · have hany : (group_by_subject rs).any (fun p => p.1 = r.subject_id) = false := by
        rw [ih]
        rw [List.any_eq_false]
        intro p hp
        obtain ⟨k, hkm, rfl⟩ := List.mem_map.mp hp
        simp only [decide_eq_true_eq]
        intro hEq
        exact hmem (hEq ▸ hkm)
      rw [hg, addRow, if_neg (by rw [hany]; exact Bool.false_ne_true), ih, hk, insKey,
        if_neg hmem, List.map_append]
      congr 1
      · apply List.map_congr_left
        intro k hkm
        have hne : ¬ (r.subject_id = k) := by
          intro hh
          exact hmem (hh ▸ hkm)
        rw [List.filter_append]
        simp [List.filter_cons, hne]
      · rw [List.map_cons, List.map_nil, List.filter_append]
        rw [filter_eq_nil_of_not_mem_keysOf hmem]
        simp [List.filter_cons]

/-- Disjoint per-key filters, concatenated over a duplicate-free covering
key list, permute the original rows: no observation lost or duplicated. -/
theorem perm_flatMap_filter :
    ∀ (kl : List String) (rows : List Row), kl.Nodup →
      (∀ r ∈ rows, r.subject_id ∈ kl) →
      (kl.flatMap (fun k => rows.filter (fun r => r.subject_id = k))).Perm rows := by
  intro kl
  induction kl with
  | nil =>
    intro rows _ hcov
    have hempty : rows = [] := by
      cases rows with
      | nil => rfl
      | cons r rs => exact absurd (hcov r (by simp)) (by simp)
    simp [hempty]
  | cons k ks ih =>
    intro rows hnd hcov
    rw [List.flatMap_cons]
    have hperm := List.filter_append_perm (fun r => r.subject_id = k) rows
    have hks : ∀ k2 ∈ ks, rows.filter (fun r => r.subject_id = k2) =
        (rows.filter (fun r => !(decide (r.subject_id = k)))).filter
          (fun r => r.subject_id = k2) := by
      intro k2 hk2
      have hne : k2 ≠ k := by
        rintro rfl
        exact (List.nodup_cons.mp hnd).1 hk2
      rw [List.filter_filter]
      apply List.filter_congr
      intro r hr
      by_cases h : r.subject_id = k2
      · simp [h, hne]
      · simp [h]
    have hmap : ks.flatMap (fun k2 => rows.filter (fun r => r.subject_id = k2)) =
        ks.flatMap (fun k2 => (rows.filter (fun r => !(decide (r.subject_id = k)))).filter
          (fun r => r.subject_id = k2)) := by
      rw [List.flatMap_def, List.flatMap_def, List.map_congr_left hks]
    rw [hmap]
    have hcov2 : ∀ r ∈ rows.filter (fun r => !(decide (r.subject_id = k))),
        r.subject_id ∈ ks := by
      intro r hr
      obtain ⟨hrm, hcond⟩ := List.mem_filter.mp hr
      have hne : ¬ (r.subject_id = k) := by simpa using hcond
      rcases List.mem_cons.mp (hcov r hrm) with h | h
      · exact absurd h hne
      · exact h
    have hihp := ih (rows.filter (fun r => !(decide (r.subject_id = k))))
      (List.nodup_cons.mp hnd).2 hcov2
    exact (List.Perm.append_left _ hihp).trans hperm

/-- Flattening the closed-form grouping is the per-key filter
concatenation. -/
theorem flattenGroups_map_filter (rows : List Row) :
    flattenGroups ((keysOf rows).map
        (fun k => (k, rows.filter (fun r => r.subject_id = k)))) =
      (keysOf rows).flatMap (fun k => rows.filter (fun r => r.subject_id = k)) := by
  unfold flattenGroups
  rw [List.flatMap_map]

/-- Refiltering the grouped-then-flattened rows by a subject recovers the
original subject filter. -/
theorem filter_flattenGroups (rows : List Row) (k : String) :
    (flattenGroups (group_by_subject rows)).filter (fun r => r.subject_id = k) =
      rows.filter (fun r => r.subject_id = k) := by
  rw [group_eq_map_filter, flattenGroups_map_filter, List.filter_flatMap]
  have hblocks : ∀ k2 ∈ keysOf rows,
      (rows.filter (fun r => r.subject_id = k2)).filter (fun r => r.subject_id = k) =
        if k2 = k then rows.filter (fun r => r.subject_id = k) else [] := by
    intro k2 _
    by_cases h : k2 = k
    · subst h
      rw [if_pos rfl, List.filter_filter]
      apply List.filter_congr
      intro r _
      by_cases hr : r.subject_id = k2 <;> simp [hr]
    · rw [if_neg h, List.filter_eq_nil_iff]
      intro r hr
      have h2 : r.subject_id = k2 := by simpa using (List.mem_filter.mp hr).2
      simp [h2, h]
  rw [List.flatMap_def, List.map_congr_left hblocks, ← List.flatMap_def]
  by_cases hmem : k ∈ keysOf rows
  · clear hblocks
    generalize hnd2 : keysOf rows = kl at hmem
    have hnd : kl.Nodup := hnd2 ▸ nodup_keysOf rows
    clear hnd2
    induction kl with
    | nil => exact absurd hmem (by simp)
    | cons k2 kt ihk =>
      rw [List.flatMap_cons]
      by_cases h : k2 = k
      · subst h
        rw [if_pos rfl]
        have hnm : k2 ∉ kt := (List.nodup_cons.mp hnd).1
        have hrest : kt.flatMap
            (fun k3 => if k3 = k2 then rows.filter (fun r => r.subject_id = k2) else []) =
            [] := by
          rw [List.flatMap_def, List.flatten_eq_nil_iff]
          intro l hl
          obtain ⟨k3, hk3, rfl⟩ := List.mem_map.mp hl
          rw [if_neg (by rintro rfl; exact hnm hk3)]
        rw [hrest, List.append_nil]
      · rw [if_neg h, List.nil_append]
        rcases List.mem_cons.mp hmem with hEq | hmem2
        · exact absurd hEq.symm h
        · exact ihk hmem2 (List.nodup_cons.mp hnd).2
  · rw [filter_eq_nil_of_not_mem_keysOf hmem, List.flatMap_def, List.flatten_eq_nil_iff]
    intro l hl
    obtain ⟨k3, hk3, rfl⟩ := List.mem_map.mp hl
    rw [if_neg (by rintro rfl; exact hmem hk3)]

/-- A key list that is all-members of the accumulator adds nothing. -/
theorem keysOfFrom_all_mem (block : List Row) :
    ∀ ks, (∀ r ∈ block, r.subject_id ∈ ks) → keysOfFrom ks block = ks := by
  induction block with
  | nil => intro ks _; rfl
  | cons r bs ih =>
    intro ks hall
    rw [keysOfFrom_cons]
    have h : insKey ks r.subject_id = ks := by
      unfold insKey
      rw [if_pos (hall r (by simp))]
    rw [h]
    exact ih ks (fun r2 hr2 => hall r2 (by simp [hr2]))

/-- A nonempty single-subject block inserts exactly its key. -/
theorem keysOfFrom_block (block : List Row) (k : String) (hne : block ≠ [])
    (hall : ∀ r ∈ block, r.subject_id = k) (ks : List String) :
    keysOfFrom ks block = insKey ks k := by
  cases block with
  | nil => exact absurd rfl hne
  | cons r bs =>
    rw [keysOfFrom_cons, hall r (by simp)]
    apply keysOfFrom_all_mem
    intro r2 hr2
    rw [hall r2 (by simp [hr2])]
    unfold insKey
    split
    · assumption
    · simp

/-- Scanning the per-key filter blocks recreates the key list. -/
theorem keysOfFrom_flatMap_blocks (rows : List Row) :
    ∀ (kl ks : List String), kl.Nodup → (∀ k ∈ kl, k ∉ ks) →
      (∀ k ∈ kl, rows.filter (fun r => r.subject_id = k) ≠ []) →
      keysOfFrom ks (kl.flatMap (fun k => rows.filter (fun r => r.subject_id = k))) =
        ks ++ kl := by
  intro kl
  induction kl with
  | nil => intro ks _ _ _; simp [keysOfFrom]
  | cons k kt ih =>
    intro ks hnd hdisj hne
    rw [List.flatMap_cons, keysOfFrom_append]
    have hall : ∀ r ∈ rows.filter (fun r => r.subject_id = k), r.subject_id = k := by
      intro r hr
      simpa using (List.mem_filter.mp hr).2
    have hblock : keysOfFrom ks (rows.filter (fun r => r.subject_id = k)) = ks ++ [k] := by
      rw [keysOfFrom_block _ k (hne k (by simp)) hall ks]
      unfold insKey
      rw [if_neg (hdisj k (by simp))]
    rw [hblock]
    have h1 : ∀ k2 ∈ kt, k2 ∉ ks ++ [k] := by
      intro k2 hk2
      rw [List.mem_append]
      rintro (h | h)
      · exact hdisj k2 (by simp [hk2]) h
      · have : k2 = k := by simpa using h
        exact (List.nodup_cons.mp hnd).1 (this ▸ hk2)
    rw [ih (ks ++ [k]) (List.nodup_cons.mp hnd).2 h1 (fun k2 hk2 => hne k2 (by simp [hk2]))]
    simp

/-- Grouping, flattening, and scanning keys again yields the original
first-seen key list. -/
theorem keysOf_flattenGroups (rows : List Row) :
    keysOf (flattenGroups (group_by_subject rows)) = keysOf rows := by
  rw [group_eq_map_filter, flattenGroups_map_filter]
  have hblocks : ∀ k ∈ keysOf rows, rows.filter (fun r => r.subject_id = k) ≠ [] := by
    intro k hk
    obtain ⟨r, hr, heq⟩ := (mem_keysOf k rows).mp hk
    exact List.ne_nil_of_mem (List.mem_filter.mpr ⟨hr, by simp [heq]⟩)
  show keysOfFrom [] _ = keysOf rows
  rw [keysOfFrom_flatMap_blocks rows (keysOf rows) [] (nodup_keysOf rows) (by simp) hblocks]
  simp

/-- C9: group_by_subject maps each first-seen subject id to the ordered
subsequence (filter) of that subject's observations; a subject id is a key
exactly when one of its rows occurs; flattening the groups in order
permutes the original rows (nothing lost or duplicated) and regrouping the
flattened rows reconstructs the same partition. -/
theorem group_by_subject_spec (rows : List Row) :
    group_by_subject rows =
      (keysOf rows).map (fun k => (k, rows.filter (fun r => r.subject_id = k))) ∧
    (∀ k, k ∈ keysOf rows ↔ ∃ r ∈ rows, r.subject_id = k) ∧
    (flattenGroups (group_by_subject rows)).Perm rows ∧
    group_by_subject (flattenGroups (group_by_subject rows)) = group_by_subject rows := by
  refine ⟨group_eq_map_filter rows, fun k => mem_keysOf k rows, ?_, ?_⟩
  · rw [group_eq_map_filter, flattenGroups_map_filter]
    exact perm_flatMap_filter (keysOf rows) rows (nodup_keysOf rows)
      (fun r hr => (mem_keysOf r.subject_id rows).mpr ⟨r, hr, rfl⟩)
  · have hflat : ∀ k2 : String,
        (flattenGroups (group_by_subject rows)).filter (fun r => r.subject_id = k2) =
          rows.filter (fun r => r.subject_id = k2) := filter_flattenGroups rows
    rw [group_eq_map_filter (flattenGroups (group_by_subject rows)), keysOf_flattenGroups,
      group_eq_map_filter rows]
    simp only [group_eq_map_filter rows] at hflat
    apply List.map_congr_left
    intro k _
    rw [hflat k]

/-- C9 witness: on a one-row list, flattening the grouping permutes the
rows, and the subject id is a key because its row occurs. -/
theorem group_by_subject_spec_witness :
    (flattenGroups (group_by_subject [sampleRow])).Perm [sampleRow] ∧
    ("A" ∈ keysOf [sampleRow] ↔ ∃ r ∈ [sampleRow], r.subject_id = "A") :=
  ⟨(group_by_subject_spec [sampleRow]).2.2.1, (group_by_subject_spec [sampleRow]).2.1 "A"⟩

end PKPD
